import Mathlib

/-!
Verification of the SZ random-access reader (seismic-zfp).

The Python sources `seismic_zfp/read.py`, `seismic_zfp/utils.py` and
`seismic_zfp/seismicfile.py` are shallowly embedded below.  Machine
integers are modelled as `Nat` (all quantities involved are non-negative
byte counts, indices and sizes); Python's floor division `//` and `%`
map to `Nat` division and modulo; byte strings map to `List Nat`;
an open file maps either to `List Nat` (its finite content, used where
end-of-file behaviour matters) or to a total byte function `Nat → Nat`
(used for the in-bounds value-consistency results).
-/

namespace SeismicZfp

/-! ## utils.py -/

/-- `utils.pad`: round `orig` up to the next multiple of `multiple`
(unchanged when it already is one). -/
def pad (orig multiple : Nat) : Nat :=
  if orig % multiple = 0 then orig else multiple * (orig / multiple + 1)

/-- `utils.bytes_to_int`: `int.from_bytes(bytes, byteorder='little')`. -/
def bytes_to_int (bs : List Nat) : Nat :=
  bs.foldr (fun b acc => b + 256 * acc) 0

/-- Python byte-string slicing `buf[a:b]` (non-negative indices). -/
def pySlice (l : List Nat) (a b : Nat) : List Nat :=
  (l.drop a).take (b - a)

/-- Python slice length: the number of elements of `arr[a:b]` when `arr`
has `len` elements along the sliced axis (non-negative `a`, `b`). -/
def pySliceLen (len a b : Nat) : Nat :=
  min b len - min a len

/-! ## read.py: geometry derived in `SzReader.__init__` -/

/-- The volume header fields parsed by `SzReader.__init__`.  The derived
quantities (`shape_pad`, `unit_bytes`, `block_bytes`, `chunk_bytes`,
`data_start_bytes`) are computed by the definitions below exactly as in
`__init__`; they are functions of these five fields and never change
afterwards. -/
structure Geom where
  ilines : Nat
  xlines : Nat
  tracelength : Nat
  rate : Nat
  headerBlocks : Nat
deriving DecidableEq

/-- `self.blockshape[2] = 2048 // self.rate`. -/
def Geom.blockshapeZ (g : Geom) : Nat := 2048 / g.rate

/-- `self.shape_pad[0] = pad(self.ilines, 4)`. -/
def Geom.shapePad0 (g : Geom) : Nat := pad g.ilines 4

/-- `self.shape_pad[1] = pad(self.xlines, 4)`. -/
def Geom.shapePad1 (g : Geom) : Nat := pad g.xlines 4

/-- `self.shape_pad[2] = pad(self.tracelength, 2048 // self.rate)`. -/
def Geom.shapePad2 (g : Geom) : Nat := pad g.tracelength (2048 / g.rate)

/-- `self.unit_bytes = ((4*4*4) * self.rate) // 8`. -/
def Geom.unitBytes (g : Geom) : Nat := 4 * 4 * 4 * g.rate / 8

/-- `self.block_bytes = (4 * 4 * (2048 // self.rate) * self.rate) // 8`. -/
def Geom.blockBytes (g : Geom) : Nat := 4 * 4 * (2048 / g.rate) * g.rate / 8

/-- `self.chunk_bytes = self.block_bytes * (self.shape_pad[2] // self.blockshape[2])`. -/
def Geom.chunkBytes (g : Geom) : Nat := g.blockBytes * (g.shapePad2 / g.blockshapeZ)

/-- `self.data_start_bytes = self.header_blocks * 4096`. -/
def Geom.dataStartBytes (g : Geom) : Nat := g.headerBlocks * 4096

/-- The Python exceptions that the embedded code can raise. -/
inductive PyError where
  | assertionError
  | zeroDivisionError
  | unboundLocalError
  | valueError
deriving DecidableEq

/-- `header_blocks = bytes_to_int(buffer[0:4])` of the first disk block. -/
def headerBlocksOf (file : List Nat) : Nat :=
  bytes_to_int (pySlice (file.take 4096) 0 4)

/-- The header buffer `__init__` ends up holding: the first 4096 bytes,
re-read as `4096 * header_blocks` bytes when `header_blocks != 1`. -/
def headerBuffer (file : List Nat) : List Nat :=
  if headerBlocksOf file ≠ 1 then file.take (4096 * headerBlocksOf file)
  else file.take 4096

/-- `self.tracelength = bytes_to_int(buffer[4:8])`. -/
def tracelengthOf (file : List Nat) : Nat :=
  bytes_to_int (pySlice (headerBuffer file) 4 8)

/-- `self.xlines = bytes_to_int(buffer[8:12])`. -/
def xlinesOf (file : List Nat) : Nat :=
  bytes_to_int (pySlice (headerBuffer file) 8 12)

/-- `self.ilines = bytes_to_int(buffer[12:16])`. -/
def ilinesOf (file : List Nat) : Nat :=
  bytes_to_int (pySlice (headerBuffer file) 12 16)

/-- `self.rate = bytes_to_int(buffer[40:44])`. -/
def rateOf (file : List Nat) : Nat := bytes_to_int (pySlice (headerBuffer file) 40 44)

/-- The header fields `__init__` stores, gathered into a `Geom`. -/
def geomOf (file : List Nat) : Geom :=
  ⟨ilinesOf file, xlinesOf file, tracelengthOf file, rateOf file, headerBlocksOf file⟩

/-- `SzReader.__init__`, applied to the byte content of the file.
Reads the first 4096 bytes, re-reads `4096 * header_blocks` bytes when
`header_blocks != 1`, parses the header fields at their fixed offsets,
derives the geometry and checks `assert block_bytes == 4096`
(`AssertionError` on failure).  `rate = 0` makes `2048 // self.rate`
raise `ZeroDivisionError`, and `2048 // rate = 0` makes
`pad(tracelength, 0)` raise `ZeroDivisionError`, both before the
assert. -/
def szReaderInit (file : List Nat) : Except PyError Geom :=
  if rateOf file = 0 then .error .zeroDivisionError
  else if 2048 / rateOf file = 0 then .error .zeroDivisionError
  else if (geomOf file).blockBytes = 4096 then .ok (geomOf file)
  else .error .assertionError

/-! ## read.py: byte-range plans

Each read method's file accesses, extracted verbatim from the seeks and
read lengths of `read.py`.  A plan is the ordered list of
`(offset, requested length)` pairs of the `f.seek`/`f.read` calls. -/

/-- `read_inline`: one seek to
`data_start_bytes + ((chunk_bytes * shape_pad[1]) // 4) * (il_id // 4)`
followed by one `f.read(chunk_bytes * shape_pad[1])`. -/
def readInlinePlan (g : Geom) (il : Nat) : Nat × Nat :=
  (g.dataStartBytes + g.chunkBytes * g.shapePad1 / 4 * (il / 4),
   g.chunkBytes * g.shapePad1)

/-- `read_inline`: shape passed to `decompress`. -/
def readInlineDecodeShape (g : Geom) : Nat × Nat × Nat :=
  (4, g.shapePad1, g.shapePad2)

/-- `read_inline`: shape of the returned trimmed array
`decompressed[il_id % 4, 0:xlines, 0:tracelength]`. -/
def readInlineShape (g : Geom) : Nat × Nat :=
  (pySliceLen g.shapePad1 0 g.xlines, pySliceLen g.shapePad2 0 g.tracelength)

/-- `read_crossline`: one seek+read per `chunk_num in range(shape_pad[0] // 4)`,
at `data_start_bytes + (xl_id // 4) * chunk_bytes + chunk_num * (chunk_bytes * shape_pad[1] // 4)`,
each of length `chunk_bytes`. -/
def readCrosslinePlan (g : Geom) (xl : Nat) : List (Nat × Nat) :=
  (List.range (g.shapePad0 / 4)).map fun k =>
    (g.dataStartBytes + xl / 4 * g.chunkBytes + k * (g.chunkBytes * g.shapePad1 / 4),
     g.chunkBytes)

/-- `read_crossline`: shape passed to `decompress`. -/
def readCrosslineDecodeShape (g : Geom) : Nat × Nat × Nat :=
  (g.shapePad0, 4, g.shapePad2)

/-- `read_crossline`: shape of `decompressed[0:ilines, xl_id % 4, 0:tracelength]`. -/
def readCrosslineShape (g : Geom) : Nat × Nat :=
  (pySliceLen g.shapePad0 0 g.ilines, pySliceLen g.shapePad2 0 g.tracelength)

/-- `read_subvolume`: the per-axis unit count `(hi + 4) // 4 - lo // 4`
(computed for `z`, `xl` and `il` alike). -/
def subvolUnits (lo hi : Nat) : Nat := (hi + 4) / 4 - lo / 4

/-- `read_subvolume`: the seek offset of loop iteration `(i, x)`. -/
def subvolSeek (g : Geom) (minIl minXl minZ i x : Nat) : Nat :=
  g.dataStartBytes + g.unitBytes *
    ((i + minIl / 4) * (g.shapePad1 / 4) * (g.shapePad2 / 4) +
     (x + minXl / 4) * (g.shapePad2 / 4) +
     minZ / 4)

/-- `read_subvolume`: one seek+read per `(i, x)` loop iteration
(`i` outer over `il_units`, `x` inner over `xl_units`), each of length
`unit_bytes * z_units`. -/
def readSubvolumePlan (g : Geom) (minIl maxIl minXl maxXl minZ maxZ : Nat) :
    List (Nat × Nat) :=
  (List.range (subvolUnits minIl maxIl)).flatMap fun i =>
    (List.range (subvolUnits minXl maxXl)).map fun x =>
      (subvolSeek g minIl minXl minZ i x, g.unitBytes * subvolUnits minZ maxZ)

/-- `read_subvolume`: shape passed to `decompress`. -/
def readSubvolumeDecodeShape (g : Geom) (minIl maxIl minXl maxXl minZ maxZ : Nat) :
    Nat × Nat × Nat :=
  (subvolUnits minIl maxIl * 4, subvolUnits minXl maxXl * 4, subvolUnits minZ maxZ * 4)

/-- `read_subvolume`: shape of the returned trimmed array
`decompressed[min_il%4 : min_il%4+max_il-min_il, …]` (Python's slice
arithmetic on the stop expression is left-associated, as here). -/
def readSubvolumeShape (g : Geom) (minIl maxIl minXl maxXl minZ maxZ : Nat) :
    Nat × Nat × Nat :=
  (pySliceLen (subvolUnits minIl maxIl * 4) (minIl % 4) (minIl % 4 + maxIl - minIl),
   pySliceLen (subvolUnits minXl maxXl * 4) (minXl % 4) (minXl % 4 + maxXl - minXl),
   pySliceLen (subvolUnits minZ maxZ * 4) (minZ % 4) (minZ % 4 + maxZ - minZ))

/-! ## read.py: `read_zslice` -/

/-- `zslice_first_block_offset = zslice_id // blockshape[2]`. -/
def zsliceFirstBlockOffset (g : Geom) (z : Nat) : Nat := z / g.blockshapeZ

/-- `zslice_unit_in_block = (zslice_id % blockshape[2]) // 4`. -/
def zsliceUnitInBlock (g : Geom) (z : Nat) : Nat := z % g.blockshapeZ / 4

/-- Modelled from the spec: `zslice_threadfunc` (module
`seismic_zfp/threadfuncs.py` is imported by `read.py` but absent from
the sources).  Per §4.2 of the spec the range for block-column `b` sits
at the column's chunk base plus the offset of the block holding
`zslice_id` within the chunk plus the offset of the 4-sample unit within
that block; the arguments wired in at `read.py:152-154` are
`data_start_bytes`, `zslice_first_block_offset`, `block_bytes`,
`zslice_unit_in_block`, `unit_bytes` and `chunk_bytes`. -/
def zsliceRangeOffset (g : Geom) (z b : Nat) : Nat :=
  g.dataStartBytes + b * g.chunkBytes +
    zsliceFirstBlockOffset g z * g.blockBytes + zsliceUnitInBlock g z * g.unitBytes

/-- `read_zslice`: the total number of unit ranges,
`(shape_pad[0] // 4) * (shape_pad[1] // 4)`. -/
def zsliceRangeCount (g : Geom) : Nat := g.shapePad0 / 4 * (g.shapePad1 / 4)

/-- Modelled from the spec: the worker for block-column `b` writes the
`unit_bytes` bytes it read into its own slice
`buffer[b * unit_bytes : (b+1) * unit_bytes]` of the shared buffer
(spec §4.4: disjoint pre-computed slices, in plan order).  The buffer is
modelled as a total byte function updated pointwise. -/
def zWrite (g : Geom) (file : Nat → Nat) (z b : Nat) (buf : Nat → Nat) : Nat → Nat :=
  fun p =>
    if b * g.unitBytes ≤ p ∧ p < b * g.unitBytes + g.unitBytes then
      file (zsliceRangeOffset g z b + (p - b * g.unitBytes))
    else buf p

/-- Execute the unit writes for the block-columns listed in `ws`, in
list order, starting from buffer state `buf`. -/
def applyZWrites (g : Geom) (file : Nat → Nat) (z : Nat) (ws : List Nat)
    (buf : Nat → Nat) : Nat → Nat :=
  ws.foldl (fun acc b => zWrite g file z b acc) buf

/-- `np.array_split(np.arange R, W)`, part `i`: the first `R % W` parts
get `R / W + 1` consecutive ids, the rest get `R / W`. -/
def arraySplitPart (R W i : Nat) : List Nat :=
  List.range' (i * (R / W) + min i (R % W)) (if i < R % W then R / W + 1 else R / W)

/-- `read_zslice`: the 32 worker ranges
(`ranges = np.array_split(block_ids, n_threads)` with `n_threads = 32`). -/
def zsliceParts (g : Geom) : List (List Nat) :=
  (List.range 32).map (arraySplitPart (zsliceRangeCount g) 32)

/-- `read_zslice`: the shared buffer after all workers have joined,
starting from the zero-filled `bytearray`.  The write order chosen here
is the concatenation of the worker ranges; the refinement theorem below
shows every interleaving of the (pairwise disjoint) writes produces this
same buffer. -/
def zsliceBuf (g : Geom) (file : Nat → Nat) (z : Nat) : Nat → Nat :=
  applyZWrites g file z (zsliceParts g).flatten (fun _ => 0)

/-- `read_zslice`: shape passed to `decompress`. -/
def readZsliceDecodeShape (g : Geom) : Nat × Nat × Nat :=
  (g.shapePad0, g.shapePad1, 4)

/-- `read_zslice`: shape of `decompressed[0:ilines, 0:xlines, zslice_id % 4]`. -/
def readZsliceShape (g : Geom) : Nat × Nat :=
  (pySliceLen g.shapePad0 0 g.ilines, pySliceLen g.shapePad1 0 g.xlines)

/-! ## The codec and per-cell values

`pyzfp.decompress` is external to the repository.  Modelled from the
spec: §1 and the glossary describe a fixed-rate block codec whose
4×4×4-voxel unit is "the smallest independently addressable compressed
granule", and §6 makes `decompress(buffer, shape, dtype, rate)` a pure
function of its arguments that returns a dense array matching `shape`.
Accordingly a decoded cell `(i, j, k)` of a buffer decoded with shape
`(n1, n2, n3)` depends only on the `unit_bytes` bytes of the unit
containing the cell — the units being laid out row-major over
`(n1/4, n2/4, n3/4)` — through an arbitrary per-unit decode function
`D` (universally quantified in the theorems). -/

/-- The `len` bytes of `buf` starting at `off`. -/
def unitList (buf : Nat → Nat) (off len : Nat) : List Nat :=
  (List.range len).map fun t => buf (off + t)

/-- Value of cell `(i, j, k)` of `decompress(buf, (n1, n2, n3), rate)`,
for a per-unit decode function `D`. -/
def decompressAt (D : List Nat → Nat → Nat → Nat → Nat) (g : Geom)
    (buf : Nat → Nat) (shape : Nat × Nat × Nat) (i j k : Nat) : Nat :=
  D (unitList buf
      (g.unitBytes *
        (i / 4 * (shape.2.1 / 4) * (shape.2.2 / 4) + j / 4 * (shape.2.2 / 4) + k / 4))
      g.unitBytes)
    (i % 4) (j % 4) (k % 4)

/-- `read_inline`: the compressed buffer, as a byte function over the
(total) file: position `p` holds the file byte at `seek offset + p`. -/
def inlineBuf (g : Geom) (file : Nat → Nat) (il : Nat) : Nat → Nat :=
  fun p => file ((readInlinePlan g il).1 + p)

/-- `read_inline`: the value at `[xl, z]` of the returned array, i.e.
`decompressed[il % 4, xl, z]`. -/
def readInlineVal (D : List Nat → Nat → Nat → Nat → Nat) (g : Geom)
    (file : Nat → Nat) (il xl z : Nat) : Nat :=
  decompressAt D g (inlineBuf g file il) (readInlineDecodeShape g) (il % 4) xl z

/-- `read_zslice`: the value at `[il, xl]` of the returned array, i.e.
`decompressed[il, xl, zslice_id % 4]`. -/
def readZsliceVal (D : List Nat → Nat → Nat → Nat → Nat) (g : Geom)
    (file : Nat → Nat) (z il xl : Nat) : Nat :=
  decompressAt D g (zsliceBuf g file z) (readZsliceDecodeShape g) il xl (z % 4)

/-- `read_subvolume`: the compressed buffer as a byte function.  Loop
iteration `(i, x)` wrote `unit_bytes * z_units` bytes at buffer offset
`(i * xl_units * z_units + x * z_units) * unit_bytes`, read from
`subvolSeek g min_il min_xl min_z i x`. -/
def subvolBuf (g : Geom) (file : Nat → Nat) (minIl minXl minZ xlUnits zUnits : Nat) :
    Nat → Nat :=
  fun p =>
    file (subvolSeek g minIl minXl minZ
            (p / (g.unitBytes * zUnits) / xlUnits)
            (p / (g.unitBytes * zUnits) % xlUnits) +
          p % (g.unitBytes * zUnits))

/-- `read_subvolume`: the value at `[a, b, c]` of the returned array,
i.e. `decompressed[min_il%4 + a, min_xl%4 + b, min_z%4 + c]`. -/
def readSubvolumeVal (D : List Nat → Nat → Nat → Nat → Nat) (g : Geom)
    (file : Nat → Nat) (minIl maxIl minXl maxXl minZ maxZ a b c : Nat) : Nat :=
  decompressAt D g
    (subvolBuf g file minIl minXl minZ (subvolUnits minXl maxXl) (subvolUnits minZ maxZ))
    (readSubvolumeDecodeShape g minIl maxIl minXl maxXl minZ maxZ)
    (minIl % 4 + a) (minXl % 4 + b) (minZ % 4 + c)

/-- The `unit_bytes` bytes of the 4×4×4 unit containing voxel
`(il, xl, z)`, at its on-disk position implied by the data layout
(units row-major over `(shape_pad0/4, shape_pad1/4, shape_pad2/4)`,
as addressed by `read_subvolume`'s seek). -/
def fileUnit (g : Geom) (file : Nat → Nat) (il xl z : Nat) : List Nat :=
  unitList file
    (g.dataStartBytes + g.unitBytes *
      (il / 4 * (g.shapePad1 / 4) * (g.shapePad2 / 4) + xl / 4 * (g.shapePad2 / 4) + z / 4))
    g.unitBytes

/-! ## seismicfile.py -/

/-- `seismicfile.Filetype`. -/
inductive Filetype where
  | SEGY
  | ZGY
  | VDS
deriving DecidableEq

/-- The handle returned by `SeismicFile.open`: which container library
opened the file, and for which name.  (The container libraries are
external; opening is modelled as constructing this handle.) -/
structure SeismicHandle where
  name : String
  filetype : Filetype
deriving DecidableEq

/-- `os.path.splitext(filename)[1].lower()` (external `os.path` helper):
the extension from the last dot on, lowercased, empty when there is no
dot. -/
def splitextLower (s : String) : String :=
  let cs := s.toList
  if cs.contains '.' then
    String.mk (('.' :: (cs.reverse.takeWhile (fun c => c ≠ '.')).reverse).map Char.toLower)
  else ""

/-- `SeismicFile.open(filename, filetype)`.  The local variable `ext` is
only assigned inside `if filetype is None:`; consulting it unassigned
raises `UnboundLocalError`, hence the `Option` and the error branch.
An extension not in the dispatch table raises `ValueError`. -/
def seismicFileOpen (filename : String) (filetype : Option Filetype) :
    Except PyError SeismicHandle :=
  let ext : Option String :=
    match filetype with
    | none => some (splitextLower filename)
    | some _ => none
  match ext with
  | none => .error .unboundLocalError
  | some e =>
    if e = ".sgy" || e = ".segy" then .ok ⟨filename, .SEGY⟩
    else if e = ".zgy" then .ok ⟨filename, .ZGY⟩
    else .error .valueError

/-! ## Claim-side formalisations and concrete inputs -/

/-- The per-axis unit count asserted by claim C2: the minimal number of
4-sample units intersecting `[lo, hi)`, i.e. `ceil(hi/4) - floor(lo/4)`. -/
def claimMinimalUnits (lo hi : Nat) : Nat := (hi + 3) / 4 - lo / 4

/-- Concrete geometry used for counterexamples and witnesses:
6 inlines, 5 crosslines, 100 samples, 4 bits per voxel, 1 header block.
Padded shape (8, 8, 512); `unit_bytes = 32`, `block_bytes = 4096`,
`chunk_bytes = 4096`. -/
def gEx : Geom := ⟨6, 5, 100, 4, 1⟩

/-- A well-formed 44-byte header: `header_blocks = 1`,
`sample_count = 100`, `crossline_count = 5`, `inline_count = 6`,
`bit_rate = 4` (so `block_bytes = 4096`). -/
def fileGood : List Nat :=
  [1, 0, 0, 0, 100, 0, 0, 0, 5, 0, 0, 0, 6, 0, 0, 0] ++
    List.replicate 24 0 ++ [4, 0, 0, 0]

/-- A header whose `bit_rate = 3` makes the derived
`block_bytes = (16 * 682 * 3) / 8 = 4092 ≠ 4096`. -/
def fileBad : List Nat :=
  [1, 0, 0, 0, 100, 0, 0, 0, 5, 0, 0, 0, 6, 0, 0, 0] ++
    List.replicate 24 0 ++ [3, 0, 0, 0]

/-! ## Helper lemmas -/

theorem pad_dvd (n m : Nat) : m ∣ pad n m := by
  unfold pad
  split
  · exact Nat.dvd_of_mod_eq_zero (by assumption)
  · exact Dvd.intro (n / m + 1) rfl

theorem le_pad (n m : Nat) (hm : 0 < m) : n ≤ pad n m := by
  unfold pad
  split
  · exact Nat.le_refl n
  · have hdm := Nat.div_add_mod n m
    have hlt := Nat.mod_lt n hm
    rw [Nat.mul_succ]
    generalize m * (n / m) = t at hdm
    omega

theorem pad_lt (n m : Nat) (hm : 0 < m) : pad n m < n + m := by
  unfold pad
  split
  · omega
  · have hdm := Nat.div_add_mod n m
    have hlt := Nat.mod_lt n hm
    have hne : n % m ≠ 0 := by assumption
    rw [Nat.mul_succ]
    generalize m * (n / m) = t at hdm
    omega

theorem unitBytes_eq (g : Geom) : g.unitBytes = 8 * g.rate := by
  unfold Geom.unitBytes
  omega

theorem blockBytes_eq (g : Geom) (h : g.rate ∣ 2048) : g.blockBytes = 4096 := by
  have hB : g.rate * (2048 / g.rate) = 2048 := Nat.mul_div_cancel' h
  unfold Geom.blockBytes
  rw [show 4 * 4 * (2048 / g.rate) * g.rate = 16 * (g.rate * (2048 / g.rate)) by ring, hB]

theorem rate_pos_of_dvd (g : Geom) (h : g.rate ∣ 2048) : 0 < g.rate := by
  rcases Nat.eq_zero_or_pos g.rate with h0 | h0
  · rw [h0] at h
    exact absurd (Nat.eq_zero_of_zero_dvd h) (by omega)
  · exact h0

theorem blockshapeZ_pos (g : Geom) (h : g.rate ∣ 2048) : 0 < g.blockshapeZ := by
  have hB : g.rate * (2048 / g.rate) = 2048 := Nat.mul_div_cancel' h
  unfold Geom.blockshapeZ
  rcases Nat.eq_zero_or_pos (2048 / g.rate) with h0 | h0
  · rw [h0, Nat.mul_zero] at hB
    omega
  · exact h0

theorem shapePad0_dvd (g : Geom) : 4 ∣ g.shapePad0 := pad_dvd g.ilines 4

theorem shapePad1_dvd (g : Geom) : 4 ∣ g.shapePad1 := pad_dvd g.xlines 4

theorem shapePad2_dvd (g : Geom) : g.blockshapeZ ∣ g.shapePad2 :=
  pad_dvd g.tracelength (2048 / g.rate)

/-- `chunk_bytes = unit_bytes * (shape_pad[2] / 4)`: a chunk is the full
depth-column of 4-sample units over one 4×4 footprint. -/
theorem chunkBytes_eq_unit (g : Geom) (h : g.rate ∣ 2048)
    (h4 : 4 ∣ g.blockshapeZ) : g.chunkBytes = g.unitBytes * (g.shapePad2 / 4) := by
  have hB : g.rate * (2048 / g.rate) = 2048 := Nat.mul_div_cancel' h
  have hBpos := blockshapeZ_pos g h
  obtain ⟨m, hm⟩ := h4
  obtain ⟨k, hk⟩ := shapePad2_dvd g
  have hm' : g.rate * (4 * m) = 2048 := by
    rw [← hm]
    exact hB
  have hmr : 8 * (g.rate * m) = 4096 := by
    have h2 : 4 * (g.rate * m) = 2048 := by
      rw [show 4 * (g.rate * m) = g.rate * (4 * m) by ring]
      exact hm'
    generalize g.rate * m = t at h2 ⊢
    omega
  unfold Geom.chunkBytes
  rw [blockBytes_eq g h, unitBytes_eq, hk, Nat.mul_div_cancel_left k hBpos, hm]
  rw [show 4 * m * k = 4 * (m * k) by ring,
    Nat.mul_div_cancel_left (m * k) (by norm_num : 0 < 4)]
  rw [show 8 * g.rate * (m * k) = 8 * (g.rate * m) * k by ring, hmr]

theorem div_eq_iff_between (p u b : Nat) (hu : 0 < u) :
    p / u = b ↔ b * u ≤ p ∧ p < b * u + u := by
  constructor
  · intro h
    have h1 := Nat.div_add_mod p u
    have h2 := Nat.mod_lt p hu
    rw [h, Nat.mul_comm u b] at h1
    generalize hpu : p % u = s at h1 h2
    constructor
    · omega
    · omega
  · intro ⟨h1, h2⟩
    exact Nat.div_eq_of_lt_le h1 (by rw [Nat.add_mul, Nat.one_mul]; omega)

theorem sub_mul_eq_mod (p u b : Nat) (hu : 0 < u) (h : p / u = b) :
    p - b * u = p % u := by
  have h1 := Nat.div_add_mod p u
  rw [h, Nat.mul_comm u b] at h1
  omega

/-- The shared buffer after any list of unit writes: position `p` holds
the byte fetched by the write for block-column `p / unit_bytes` when that
column is in the list, and the initial byte otherwise.  (Each position
belongs to exactly one column's slice, so the written value does not
depend on the order or multiplicity of the writes.) -/
theorem applyZWrites_apply (g : Geom) (file : Nat → Nat) (z : Nat)
    (hu : 0 < g.unitBytes) (ws : List Nat) (buf : Nat → Nat) (p : Nat) :
    applyZWrites g file z ws buf p =
      if p / g.unitBytes ∈ ws then
        file (zsliceRangeOffset g z (p / g.unitBytes) + p % g.unitBytes)
      else buf p := by
  induction ws generalizing buf with
  | nil => simp [applyZWrites]
  | cons b t ih =>
    show applyZWrites g file z t (zWrite g file z b buf) p = _
    rw [ih]
    by_cases ht : p / g.unitBytes ∈ t
    · rw [if_pos ht, if_pos (List.mem_cons.mpr (Or.inr ht))]
    · rw [if_neg ht]
      by_cases hb : p / g.unitBytes = b
      · have hcond := (div_eq_iff_between p g.unitBytes b hu).mp hb
        rw [if_pos (List.mem_cons.mpr (Or.inl hb))]
        unfold zWrite
        rw [if_pos hcond, ← hb,
          sub_mul_eq_mod p g.unitBytes (p / g.unitBytes) hu rfl]
      · have hcond : ¬(b * g.unitBytes ≤ p ∧ p < b * g.unitBytes + g.unitBytes) :=
          fun hc => hb ((div_eq_iff_between p g.unitBytes b hu).mpr hc)
        rw [if_neg (by rw [List.mem_cons]; exact fun hor => hor.elim hb ht)]
        unfold zWrite
        rw [if_neg hcond]

/-- Buffers produced by any two permutations of the same write list are
identical. -/
theorem applyZWrites_perm (g : Geom) (file : Nat → Nat) (z : Nat)
    (hu : 0 < g.unitBytes) (ws ws' : List Nat) (hperm : List.Perm ws ws')
    (buf : Nat → Nat) (p : Nat) :
    applyZWrites g file z ws buf p = applyZWrites g file z ws' buf p := by
  rw [applyZWrites_apply g file z hu ws buf p,
    applyZWrites_apply g file z hu ws' buf p]
  by_cases h : p / g.unitBytes ∈ ws
  · rw [if_pos h, if_pos (hperm.mem_iff.mp h)]
  · rw [if_neg h, if_neg (fun hc => h (hperm.mem_iff.mpr hc))]

/-- The start index of `np.array_split` part `i`. -/
def splitStart (R W i : Nat) : Nat := i * (R / W) + min i (R % W)

theorem splitStart_succ (R W i : Nat) :
    splitStart R W (i + 1) =
      splitStart R W i + (if i < R % W then R / W + 1 else R / W) := by
  unfold splitStart
  rw [Nat.succ_mul]
  generalize i * (R / W) = t
  by_cases h : i < R % W
  · rw [if_pos h, min_eq_left (by omega), min_eq_left (by omega)]
    omega
  · rw [if_neg h, min_eq_right (by omega), min_eq_right (by omega)]
    omega

theorem splitStart_mono (R W : Nat) {i j : Nat} (h : i ≤ j) :
    splitStart R W i ≤ splitStart R W j := by
  unfold splitStart
  exact Nat.add_le_add (Nat.mul_le_mul_right (R / W) h)
    (min_le_min h (le_refl (R % W)))

theorem arraySplitPart_eq (R W i : Nat) :
    arraySplitPart R W i =
      List.range' (splitStart R W i) (splitStart R W (i + 1) - splitStart R W i) := by
  rw [splitStart_succ]
  unfold arraySplitPart splitStart
  congr 1
  omega

theorem splitStart_last (R W : Nat) (hW : 0 < W) : splitStart R W W = R := by
  unfold splitStart
  rw [min_eq_right (le_of_lt (Nat.mod_lt R hW))]
  exact Nat.div_add_mod R W

theorem flatten_range'_parts (f : Nat → Nat) (W : Nat)
    (hmono : ∀ i, f i ≤ f (i + 1)) (h0 : f 0 = 0) :
    ((List.range W).map fun i => List.range' (f i) (f (i + 1) - f i)).flatten =
      List.range (f W) := by
  induction W with
  | zero => simp [h0]
  | succ W ih =>
    rw [List.range_succ, List.map_append, List.flatten_append, ih]
    simp only [List.map_cons, List.map_nil, List.flatten_cons, List.flatten_nil,
      List.append_nil]
    rw [List.range_eq_range', List.range_eq_range']
    have happ := List.range'_append 0 (f W) (f (W + 1) - f W) 1
    simp only [Nat.one_mul, Nat.zero_add] at happ
    rw [happ]
    congr 1
    have := hmono W
    omega

/-- The 32 worker ranges of `read_zslice` concatenate, in order, to the
full plan `[0, …, R)`. -/
theorem zsliceParts_flatten (g : Geom) :
    (zsliceParts g).flatten = List.range (zsliceRangeCount g) := by
  unfold zsliceParts
  rw [List.map_congr_left
    (fun i _ => arraySplitPart_eq (zsliceRangeCount g) 32 i)]
  rw [flatten_range'_parts (splitStart (zsliceRangeCount g) 32) 32
    (fun i => splitStart_mono (zsliceRangeCount g) 32 (Nat.le_succ i))
    (by unfold splitStart; simp)]
  rw [splitStart_last (zsliceRangeCount g) 32 (by norm_num)]

/-- Distinct workers own disjoint sets of block-columns. -/
theorem zsliceParts_disjoint (g : Geom) {i j b : Nat} (hij : i ≠ j)
    (hi : b ∈ arraySplitPart (zsliceRangeCount g) 32 i)
    (hj : b ∈ arraySplitPart (zsliceRangeCount g) 32 j) : False := by
  wlog hlt : i < j generalizing i j
  · exact this hij.symm hj hi (by omega)
  rw [arraySplitPart_eq] at hi hj
  rw [List.mem_range'_1] at hi hj
  have h1 : splitStart (zsliceRangeCount g) 32 (i + 1) ≤
      splitStart (zsliceRangeCount g) 32 j :=
    splitStart_mono (zsliceRangeCount g) 32 (by omega)
  omega

/-! ## Claim theorems -/

/-- C10: for every call `SeismicFile.open(filename, filetype)` with a
non-`None` `filetype`, the local `ext` consulted by the dispatch was
never assigned (it is only assigned when `filetype is None`), so the
call raises `UnboundLocalError` before opening any container — the
`filetype` parameter can never successfully select a format. -/
theorem C10_filetype_param_always_raises (filename : String) (filetype : Filetype) :
    seismicFileOpen filename (some filetype) = Except.error PyError.unboundLocalError :=
  rfl

/-- C7: opening fails (with the embedded counterpart of the format
error, the `assert block_bytes == 4096` failure) exactly when the
derived `block_bytes` is not 4096 — provided the derivation itself
completes, i.e. `rate` and `2048 // rate` are nonzero — it succeeds
past the check otherwise, and every successfully opened reader has
`block_bytes = 4096` for its lifetime (`Geom` is immutable). -/
theorem C7_block_size_check (file : List Nat) :
    (∀ r, szReaderInit file = Except.ok r → r.blockBytes = 4096) ∧
    ((geomOf file).blockBytes = 4096 → szReaderInit file = Except.ok (geomOf file)) ∧
    (0 < rateOf file → 0 < 2048 / rateOf file → (geomOf file).blockBytes ≠ 4096 →
      szReaderInit file = Except.error PyError.assertionError) := by
  refine ⟨?_, ?_, ?_⟩
  · intro r hr
    unfold szReaderInit at hr
    split at hr
    · exact absurd hr (by simp)
    · split at hr
      · exact absurd hr (by simp)
      · split at hr
        · rename_i hcond
          injection hr with h
          rw [← h]
          exact hcond
        · exact absurd hr (by simp)
  · intro h4096
    have hrate : ¬rateOf file = 0 := by
      intro h0
      rw [show (geomOf file).blockBytes = 4 * 4 * (2048 / rateOf file) * rateOf file / 8
        from rfl, h0] at h4096
      omega
    have hquot : ¬2048 / rateOf file = 0 := by
      intro h0
      rw [show (geomOf file).blockBytes = 4 * 4 * (2048 / rateOf file) * rateOf file / 8
        from rfl, h0] at h4096
      simp at h4096
    unfold szReaderInit
    rw [if_neg hrate, if_neg hquot, if_pos h4096]
  · intro hr hq hne
    unfold szReaderInit
    rw [if_neg (by omega), if_neg (by omega), if_neg hne]

/-- Witness for C7 at the concrete header `fileBad` (`bit_rate = 3`,
derived `block_bytes = 4092`). -/
theorem C7_block_size_check_witness :
    (geomOf fileBad).blockBytes ≠ 4096 ∧
      szReaderInit fileBad = Except.error PyError.assertionError :=
  ⟨by decide, (C7_block_size_check fileBad).2.2 (by decide) (by decide) (by decide)⟩

/-- C1 counterexample: the claim asserts `read_subvolume(5, 3, …)` and
`read_inline(inline_count)` raise `RangeError`.  The source performs no
bounds validation and contains no raise: on the concrete geometry `gEx`
(`inline_count = 6`), `read_subvolume(5, 3, 0, 1, 0, 1)` plans zero
reads and returns an array empty along the inline axis, and
`read_inline(6)` plans an ordinary read of block-row `6 // 4 = 1` —
both calls return normally in the embedding, no `RangeError` exists. -/
theorem C1_counterexample :
    readSubvolumePlan gEx 5 3 0 1 0 1 = [] ∧
    readSubvolumeShape gEx 5 3 0 1 0 1 = (0, 1, 1) ∧
    readInlinePlan gEx 6 = (12288, 32768) := by decide

/-- C1 (amended): no read call validates its bounds and no `RangeError`
is raised.  For every geometry with a positive z-block extent:
`read_inline` returns an array of shape `(crossline_count,
sample_count)` for every `il_index` whatsoever (in particular
`il_index = inline_count`), and `read_subvolume` with
`max_il ≤ min_il < max_il + 4` (the claim's `(5, 3, …)` shape of
invalidity, kept where Python's unit counts stay non-negative) returns
normally with an array empty along the inline axis. -/
theorem C1_amended (g : Geom) (minIl maxIl minXl maxXl minZ maxZ : Nat)
    (hB : 0 < g.blockshapeZ)
    (hil : maxIl ≤ minIl) (hil4 : minIl < maxIl + 4)
    (hxl : minXl ≤ maxXl) (hz : minZ ≤ maxZ) :
    readInlineShape g = (g.xlines, g.tracelength) ∧
    (readSubvolumeShape g minIl maxIl minXl maxXl minZ maxZ).1 = 0 := by
  constructor
  · have hx := le_pad g.xlines 4 (by norm_num)
    have ht := le_pad g.tracelength (2048 / g.rate) hB
    unfold readInlineShape pySliceLen Geom.shapePad1 Geom.shapePad2
    unfold Geom.blockshapeZ at hB
    simp only [Prod.mk.injEq]
    constructor
    · omega
    · omega
  · unfold readSubvolumeShape pySliceLen
    omega

/-- Witness for C1 (amended) at `gEx` and the claim's own example
bounds `(5, 3, 0, 1, 0, 1)`. -/
theorem C1_amended_witness :
    0 < gEx.blockshapeZ ∧
    (readInlineShape gEx = (gEx.xlines, gEx.tracelength) ∧
      (readSubvolumeShape gEx 5 3 0 1 0 1).1 = 0) :=
  ⟨by decide,
    C1_amended gEx 5 3 0 1 0 1 (by decide) (by decide) (by decide) (by decide)
      (by decide)⟩

/-- C2 counterexample: the claim asserts each axis is covered with
`ceil(hi/4) - floor(lo/4)` units, with no extra unit when a bound lies
on a 4-sample boundary.  For `[lo, hi) = [0, 4)` the code computes
`(4 + 4) / 4 - 0 / 4 = 2` units where the minimal cover is 1, and the
plan of `read_subvolume(0, 4, 0, 4, 0, 4)` on `gEx` emits `2 × 2 = 4`
ranges where the claim predicts `1 × 1 = 1`. -/
theorem C2_counterexample :
    subvolUnits 0 4 = 2 ∧ claimMinimalUnits 0 4 = 1 ∧
    subvolUnits 0 4 ≠ claimMinimalUnits 0 4 ∧
    (readSubvolumePlan gEx 0 4 0 4 0 4).length = 4 := by decide

/-- C2 (amended): `read_subvolume` covers each axis with
`(hi + 4)/4 - lo/4` units of granularity 4, which equals the minimal
`ceil(hi/4) - floor(lo/4)` plus one extra unit exactly when `hi` is a
multiple of 4; the plan emits exactly `il_units × xl_units` contiguous
ranges of `unit_byte_size × z_units` bytes each. -/
theorem C2_amended (g : Geom) (minIl maxIl minXl maxXl minZ maxZ : Nat) :
    (readSubvolumePlan g minIl maxIl minXl maxXl minZ maxZ).length =
      subvolUnits minIl maxIl * subvolUnits minXl maxXl ∧
    (∀ pr ∈ readSubvolumePlan g minIl maxIl minXl maxXl minZ maxZ,
      pr.2 = g.unitBytes * subvolUnits minZ maxZ) ∧
    (∀ lo hi, lo ≤ hi →
      subvolUnits lo hi = claimMinimalUnits lo hi + if hi % 4 = 0 then 1 else 0) := by
  refine ⟨?_, ?_, ?_⟩
  · unfold readSubvolumePlan
    rw [List.length_flatMap]
    simp [Function.comp_def, List.length_map, List.length_range, List.map_const',
      List.sum_replicate, smul_eq_mul]
  · intro pr hpr
    unfold readSubvolumePlan at hpr
    rw [List.mem_flatMap] at hpr
    obtain ⟨i, _, hpr⟩ := hpr
    rw [List.mem_map] at hpr
    obtain ⟨x, _, hx⟩ := hpr
    rw [← hx]
  · intro lo hi hle
    unfold subvolUnits claimMinimalUnits
    by_cases h : hi % 4 = 0
    · rw [if_pos h]
      omega
    · rw [if_neg h]
      omega

/-- Witness for C2 (amended): the inner unit-count characterisation
applied at the boundary case `[0, 4)`. -/
theorem C2_amended_witness :
    (0 : Nat) ≤ 4 ∧
      subvolUnits 0 4 = claimMinimalUnits 0 4 + if 4 % 4 = 0 then 1 else 0 :=
  ⟨by decide, (C2_amended gEx 0 4 0 4 0 4).2.2 0 4 (by decide)⟩

/-- C3 counterexample: the claim asserts `read_inline` reads
`chunk_byte_size × padded_crossline_blocks` bytes.  On `gEx`
(`chunk_bytes = 4096`, `padded_crossline_blocks = 2`) the code requests
`chunk_bytes * shape_pad[1] = 32768` bytes — four times the claimed
`8192` (the source lacks the `// 4` in the read length that its own
offset stride has). -/
theorem C3_counterexample :
    (readInlinePlan gEx 0).2 = 32768 ∧
    gEx.chunkBytes * (gEx.shapePad1 / 4) = 8192 ∧
    (readInlinePlan gEx 0).2 ≠ gEx.chunkBytes * (gEx.shapePad1 / 4) := by decide

/-- C3 (amended): for every `il_index`, `read_inline` performs exactly
one contiguous file read (the plan is a single `(offset, length)`
pair), starting at
`data_start_offset + (il_index/4) × (chunk_byte_size ×
padded_crossline_blocks)` as claimed, but requesting
`4 × (chunk_byte_size × padded_crossline_blocks)` bytes — i.e.
`chunk_byte_size × padded_crossline_count` — rather than the claimed
row size; the buffer is decoded with shape
`(4, padded_crossline, padded_z)`. -/
theorem C3_amended (g : Geom) (il : Nat) :
    (readInlinePlan g il).1 =
      g.dataStartBytes + il / 4 * (g.chunkBytes * (g.shapePad1 / 4)) ∧
    (readInlinePlan g il).2 = 4 * (g.chunkBytes * (g.shapePad1 / 4)) ∧
    readInlineDecodeShape g = (4, g.shapePad1, g.shapePad2) := by
  obtain ⟨p1, hp1⟩ := shapePad1_dvd g
  have hq : g.chunkBytes * g.shapePad1 / 4 = g.chunkBytes * p1 := by
    rw [hp1, show g.chunkBytes * (4 * p1) = 4 * (g.chunkBytes * p1) by ring,
      Nat.mul_div_cancel_left _ (by norm_num : 0 < 4)]
  have hp : g.shapePad1 / 4 = p1 := by
    rw [hp1, Nat.mul_div_cancel_left _ (by norm_num : 0 < 4)]
  refine ⟨?_, ?_, rfl⟩
  · show g.dataStartBytes + g.chunkBytes * g.shapePad1 / 4 * (il / 4) = _
    rw [hq, hp]
    ring
  · show g.chunkBytes * g.shapePad1 = _
    rw [hp, hp1]
    ring

/-- C8: every read returns an array of exactly the advertised logical
shape, the block padding being trimmed from the high end:
`read_inline` → `(crossline_count, sample_count)`, `read_crossline` →
`(inline_count, sample_count)`, `read_zslice` →
`(inline_count, crossline_count)`, and `read_subvolume` →
`(max_il - min_il, max_xl - min_xl, max_z - min_z)` for every valid
half-open request box. -/
theorem C8_result_shapes (g : Geom) (minIl maxIl minXl maxXl minZ maxZ : Nat)
    (hB : 0 < g.blockshapeZ)
    (h1 : minIl < maxIl) (h2 : maxIl ≤ g.ilines)
    (h3 : minXl < maxXl) (h4 : maxXl ≤ g.xlines)
    (h5 : minZ < maxZ) (h6 : maxZ ≤ g.tracelength) :
    readInlineShape g = (g.xlines, g.tracelength) ∧
    readCrosslineShape g = (g.ilines, g.tracelength) ∧
    readZsliceShape g = (g.ilines, g.xlines) ∧
    readSubvolumeShape g minIl maxIl minXl maxXl minZ maxZ =
      (maxIl - minIl, maxXl - minXl, maxZ - minZ) := by
  have hx := le_pad g.xlines 4 (by norm_num)
  have hi := le_pad g.ilines 4 (by norm_num)
  have ht := le_pad g.tracelength (2048 / g.rate) (by
    unfold Geom.blockshapeZ at hB
    exact hB)
  refine ⟨?_, ?_, ?_, ?_⟩
  · unfold readInlineShape pySliceLen Geom.shapePad1 Geom.shapePad2
    simp only [Prod.mk.injEq]
    exact ⟨by omega, by omega⟩
  · unfold readCrosslineShape pySliceLen Geom.shapePad0 Geom.shapePad2
    simp only [Prod.mk.injEq]
    exact ⟨by omega, by omega⟩
  · unfold readZsliceShape pySliceLen Geom.shapePad0 Geom.shapePad1
    simp only [Prod.mk.injEq]
    exact ⟨by omega, by omega⟩
  · unfold readSubvolumeShape pySliceLen subvolUnits
    simp only [Prod.mk.injEq]
    refine ⟨by omega, by omega, by omega⟩

/-- Witness for C8 at `gEx` and the unit box `(0,1,0,1,0,1)`. -/
theorem C8_result_shapes_witness :
    0 < gEx.blockshapeZ ∧
    (readInlineShape gEx = (gEx.xlines, gEx.tracelength) ∧
      readCrosslineShape gEx = (gEx.ilines, gEx.tracelength) ∧
      readZsliceShape gEx = (gEx.ilines, gEx.xlines) ∧
      readSubvolumeShape gEx 0 1 0 1 0 1 = (1, 1, 1)) :=
  ⟨by decide,
    C8_result_shapes gEx 0 1 0 1 0 1 (by decide) (by decide) (by decide) (by decide)
      (by decide) (by decide) (by decide)⟩

/-- The row stride of `read_inline`/`read_crossline`:
`chunk_bytes * shape_pad[1] // 4 = chunk_bytes * (shape_pad[1] // 4)`
(the padded crossline count is a multiple of 4). -/
theorem chunk_row_stride (g : Geom) :
    g.chunkBytes * g.shapePad1 / 4 = g.chunkBytes * (g.shapePad1 / 4) := by
  obtain ⟨p1, hp1⟩ := shapePad1_dvd g
  rw [hp1, Nat.mul_div_cancel_left _ (by norm_num : 0 < 4),
    show g.chunkBytes * (4 * p1) = 4 * (g.chunkBytes * p1) by ring,
    Nat.mul_div_cancel_left _ (by norm_num : 0 < 4)]

/-- C6: for every `xl_index`, `read_crossline` issues exactly
`padded_inline_blocks` reads of `chunk_byte_size` bytes each; the `k`-th
starts at `data_start_offset + (xl_index/4) × chunk_byte_size +
k × (chunk_byte_size × padded_crossline_blocks)` — fixed stride
`chunk_byte_size × padded_crossline_blocks` — they are concatenated in
plan order (`buffer[chunk_num*chunk_bytes : (chunk_num+1)*chunk_bytes]`),
and the buffer is decoded with shape `(padded_inline, 4, padded_z)`. -/
theorem C6_crossline_plan (g : Geom) (xl : Nat) :
    (readCrosslinePlan g xl).length = g.shapePad0 / 4 ∧
    (∀ k, k < g.shapePad0 / 4 →
      (readCrosslinePlan g xl)[k]? =
        some (g.dataStartBytes + xl / 4 * g.chunkBytes +
          k * (g.chunkBytes * (g.shapePad1 / 4)), g.chunkBytes)) ∧
    readCrosslineDecodeShape g = (g.shapePad0, 4, g.shapePad2) := by
  refine ⟨by simp [readCrosslinePlan], ?_, rfl⟩
  intro k hk
  unfold readCrosslinePlan
  rw [List.getElem?_map, List.getElem?_range hk, Option.map_some', chunk_row_stride]

/-- Witness for C6 at `gEx`, `xl_index = 5`, `k = 1`. -/
theorem C6_crossline_plan_witness :
    (1 : Nat) < gEx.shapePad0 / 4 ∧
      (readCrosslinePlan gEx 5)[1]? =
        some (gEx.dataStartBytes + 5 / 4 * gEx.chunkBytes +
          1 * (gEx.chunkBytes * (gEx.shapePad1 / 4)), gEx.chunkBytes) :=
  ⟨by decide, (C6_crossline_plan gEx 5).2.1 1 (by decide)⟩

/-- C9: `read_zslice` splits the `R = padded_inline_blocks ×
padded_crossline_blocks` unit ranges over the fixed pool of 32 workers
(`np.array_split`) into disjoint groups that are contiguous in plan
order and cover all of `[0, R)`; each block-column's write touches only
its own `unit_bytes`-slice of the shared buffer, so executing the
writes in any order — any interleaving of the workers — yields the very
buffer of the sequential single-worker execution of the plan, for every
file content and `z`.  (`zslice_threadfunc` itself is absent from the
sources; its writes are modelled from spec §4.2/§4.4.) -/
theorem C9_zslice_partition_refinement (g : Geom) (file : Nat → Nat) (z : Nat)
    (hr : 0 < g.rate) :
    (zsliceParts g).length = 32 ∧
    (zsliceParts g).flatten = List.range (zsliceRangeCount g) ∧
    (∀ i j b, i ≠ j →
      b ∈ arraySplitPart (zsliceRangeCount g) 32 i →
      b ∈ arraySplitPart (zsliceRangeCount g) 32 j → False) ∧
    (∀ ws, List.Perm ws (zsliceParts g).flatten →
      ∀ p, applyZWrites g file z ws (fun _ => 0) p =
        applyZWrites g file z (List.range (zsliceRangeCount g)) (fun _ => 0) p) ∧
    (∀ p, zsliceBuf g file z p =
      applyZWrites g file z (List.range (zsliceRangeCount g)) (fun _ => 0) p) := by
  have hu : 0 < g.unitBytes := by
    rw [unitBytes_eq]
    omega
  refine ⟨by simp [zsliceParts], zsliceParts_flatten g,
    fun i j b hij hi hj => zsliceParts_disjoint g hij hi hj, ?_, ?_⟩
  · intro ws hperm p
    exact applyZWrites_perm g file z hu ws (List.range (zsliceRangeCount g))
      (hperm.trans (by rw [zsliceParts_flatten g])) (fun _ => 0) p
  · intro p
    unfold zsliceBuf
    exact applyZWrites_perm g file z hu (zsliceParts g).flatten
      (List.range (zsliceRangeCount g)) (by rw [zsliceParts_flatten g]) (fun _ => 0) p

/-- Witness for C9: on `gEx` (`R = 4`), running the four unit writes in
reversed order produces the same buffer byte as the sequential plan
order. -/
theorem C9_zslice_partition_refinement_witness :
    0 < gEx.rate ∧ List.Perm [3, 2, 1, 0] (zsliceParts gEx).flatten ∧
      applyZWrites gEx (fun _ => 0) 0 [3, 2, 1, 0] (fun _ => 0) 7 =
        applyZWrites gEx (fun _ => 0) 0 (List.range (zsliceRangeCount gEx))
          (fun _ => 0) 7 :=
  ⟨by decide, by decide,
    (C9_zslice_partition_refinement gEx (fun _ => 0) 0 (by decide)).2.2.2.1
      [3, 2, 1, 0] (by decide) 7⟩

theorem pySlice_take (l : List Nat) (n a b : Nat) (h : b ≤ n) :
    pySlice (l.take n) a b = pySlice l a b := by
  unfold pySlice
  rw [List.drop_take, List.take_take, min_eq_left (by omega)]

/-- Re-reading a larger header buffer does not move the field offsets:
every slice ending within the first disk block is the same slice of the
file. -/
theorem headerBuffer_slice (file : List Nat) (a b : Nat) (hb : b ≤ 4096)
    (hhb : 1 ≤ headerBlocksOf file) :
    pySlice (headerBuffer file) a b = pySlice file a b := by
  unfold headerBuffer
  split
  · have h1 : 4096 ≤ 4096 * headerBlocksOf file := Nat.le_mul_of_pos_right 4096 hhb
    exact pySlice_take file _ a b (by omega)
  · exact pySlice_take file 4096 a b (by omega)

/-- A successful `__init__` returns exactly the parsed geometry, and its
guards passed. -/
theorem szReaderInit_ok (file : List Nat) (r : Geom)
    (h : szReaderInit file = Except.ok r) :
    r = geomOf file ∧ 0 < rateOf file ∧ 0 < 2048 / rateOf file := by
  unfold szReaderInit at h
  split at h
  · exact absurd h (by simp)
  · split at h
    · exact absurd h (by simp)
    · split at h
      · rename_i h1 h2 h3
        injection h with h
        exact ⟨h.symm, Nat.pos_of_ne_zero h1, Nat.pos_of_ne_zero h2⟩
      · exact absurd h (by simp)

theorem bytes_to_int_four (b0 b1 b2 b3 : Nat) :
    bytes_to_int [b0, b1, b2, b3] = b0 + 256 * b1 + 65536 * b2 + 16777216 * b3 := by
  unfold bytes_to_int
  simp [List.foldr]
  ring

/-- C5: the layout is a deterministic function of the fixed header byte
offsets — `header_block_count` is little-endian bytes [0:4) of the
file, `sample_count` bytes [4:8), `crossline_count` bytes [8:12),
`inline_count` bytes [12:16), `bit_rate` bytes [40:44) —
`data_start_offset = header_block_count × 4096`, and every component of
`padded_shape` is its true extent rounded up to the nearest multiple of
the corresponding `block_shape` component `(4, 4, 2048/bit_rate)`
(that is: divisible by it, at least the extent, and less than one block
beyond it). -/
theorem C5_layout_from_header (file : List Nat) (r : Geom)
    (hok : szReaderInit file = Except.ok r) (hhb : 1 ≤ headerBlocksOf file) :
    (∀ b0 b1 b2 b3, bytes_to_int [b0, b1, b2, b3]
        = b0 + 256 * b1 + 65536 * b2 + 16777216 * b3) ∧
    r.headerBlocks = bytes_to_int (pySlice file 0 4) ∧
    r.tracelength = bytes_to_int (pySlice file 4 8) ∧
    r.xlines = bytes_to_int (pySlice file 8 12) ∧
    r.ilines = bytes_to_int (pySlice file 12 16) ∧
    r.rate = bytes_to_int (pySlice file 40 44) ∧
    r.dataStartBytes = r.headerBlocks * 4096 ∧
    (r.shapePad0 % 4 = 0 ∧ r.ilines ≤ r.shapePad0 ∧ r.shapePad0 < r.ilines + 4) ∧
    (r.shapePad1 % 4 = 0 ∧ r.xlines ≤ r.shapePad1 ∧ r.shapePad1 < r.xlines + 4) ∧
    (r.shapePad2 % r.blockshapeZ = 0 ∧ r.tracelength ≤ r.shapePad2 ∧
      r.shapePad2 < r.tracelength + r.blockshapeZ) := by
  obtain ⟨hr, hrate, hquot⟩ := szReaderInit_ok file r hok
  subst hr
  have hmod : ∀ n m : Nat, m ∣ pad n m → pad n m % m = 0 := by
    intro n m hd
    obtain ⟨t, ht⟩ := hd
    rw [ht]
    exact Nat.mul_mod_right m t
  refine ⟨bytes_to_int_four, ?_, ?_, ?_, ?_, ?_, rfl, ?_, ?_, ?_⟩
  · show headerBlocksOf file = _
    unfold headerBlocksOf
    rw [pySlice_take file 4096 0 4 (by omega)]
  · show tracelengthOf file = _
    unfold tracelengthOf
    rw [headerBuffer_slice file 4 8 (by omega) hhb]
  · show xlinesOf file = _
    unfold xlinesOf
    rw [headerBuffer_slice file 8 12 (by omega) hhb]
  · show ilinesOf file = _
    unfold ilinesOf
    rw [headerBuffer_slice file 12 16 (by omega) hhb]
  · show rateOf file = _
    unfold rateOf
    rw [headerBuffer_slice file 40 44 (by omega) hhb]
  · exact ⟨hmod _ _ (shapePad0_dvd (geomOf file)),
      le_pad _ 4 (by norm_num), pad_lt _ 4 (by norm_num)⟩
  · exact ⟨hmod _ _ (shapePad1_dvd (geomOf file)),
      le_pad _ 4 (by norm_num), pad_lt _ 4 (by norm_num)⟩
  · exact ⟨hmod _ _ (shapePad2_dvd (geomOf file)),
      le_pad _ _ hquot, pad_lt _ _ hquot⟩

/-- Witness for C5 at the concrete header `fileGood`. -/
theorem C5_layout_from_header_witness :
    szReaderInit fileGood = Except.ok (geomOf fileGood) ∧
      (geomOf fileGood).tracelength = bytes_to_int (pySlice fileGood 4 8) ∧
      (geomOf fileGood).shapePad2 % (geomOf fileGood).blockshapeZ = 0 :=
  ⟨rfl, (C5_layout_from_header fileGood (geomOf fileGood) rfl (by decide)).2.2.1,
    ((C5_layout_from_header fileGood (geomOf fileGood) rfl (by decide)).2.2.2.2.2.2.2.2.2).1⟩

/-- `block_bytes = unit_bytes * (blockshape[2] / 4)`: a disk block is a
stack of `blockshape[2]/4` 4×4×4 units. -/
theorem blockBytes_eq_unit (g : Geom) (hdvd : g.rate ∣ 2048)
    (h4 : 4 ∣ g.blockshapeZ) : g.blockBytes = g.unitBytes * (g.blockshapeZ / 4) := by
  obtain ⟨m, hm⟩ := h4
  have hB : g.rate * g.blockshapeZ = 2048 := Nat.mul_div_cancel' hdvd
  rw [hm] at hB
  have h2 : 4 * (g.rate * m) = 2048 := by
    rw [show 4 * (g.rate * m) = g.rate * (4 * m) by ring]
    exact hB
  rw [blockBytes_eq g hdvd, unitBytes_eq, hm,
    Nat.mul_div_cancel_left m (by norm_num : 0 < 4),
    show 8 * g.rate * m = 2 * (4 * (g.rate * m)) by ring, h2]

/-- Splitting a depth index at block granularity:
`z / 4 = (z / B) * (B / 4) + (z % B) / 4` when `4 ∣ B`. -/
theorem div4_decompose (z B : Nat) (h4 : 4 ∣ B) (hB : 0 < B) :
    z / 4 = z / B * (B / 4) + z % B / 4 := by
  obtain ⟨m, hm⟩ := h4
  have hq := Nat.div_add_mod z B
  generalize hqq : z / B = q at hq ⊢
  generalize hss : z % B = s at hq ⊢
  subst hm
  rw [Nat.mul_div_cancel_left m (by norm_num : 0 < 4), ← hq,
    show 4 * m * q + s = s + 4 * (m * q) by ring,
    Nat.add_mul_div_left _ _ (by norm_num : 0 < 4)]
  ring

/-- The inline block-row stride equals `unit_bytes` times the number of
units in a row of chunks. -/
theorem inline_stride_eq (g : Geom) (hdvd : g.rate ∣ 2048)
    (h4 : 4 ∣ g.blockshapeZ) :
    g.chunkBytes * g.shapePad1 / 4 =
      g.unitBytes * (g.shapePad1 / 4 * (g.shapePad2 / 4)) := by
  rw [chunk_row_stride g, chunkBytes_eq_unit g hdvd h4]
  ring

/-- The offset a zslice worker computes for block-column `b` is the
on-disk offset of the 4×4×4 unit holding depth `z` there. -/
theorem zsliceRangeOffset_eq (g : Geom) (z il xl : Nat) (hdvd : g.rate ∣ 2048)
    (h4 : 4 ∣ g.blockshapeZ) :
    zsliceRangeOffset g z (il / 4 * (g.shapePad1 / 4) + xl / 4) =
      g.dataStartBytes + g.unitBytes *
        (il / 4 * (g.shapePad1 / 4) * (g.shapePad2 / 4) +
          xl / 4 * (g.shapePad2 / 4) + z / 4) := by
  have hBpos := blockshapeZ_pos g hdvd
  unfold zsliceRangeOffset zsliceFirstBlockOffset zsliceUnitInBlock
  rw [chunkBytes_eq_unit g hdvd h4, blockBytes_eq_unit g hdvd h4,
    div4_decompose z g.blockshapeZ h4 hBpos]
  ring

/-- `read_subvolume` on the single-voxel box `[il, il+1) × [xl, xl+1) ×
[z, z+1)` at `[0,0,0]` decodes the on-disk unit of `(il, xl, z)`. -/
theorem readSubvolumeVal_single (D : List Nat → Nat → Nat → Nat → Nat) (g : Geom)
    (file : Nat → Nat) (il xl z : Nat) (hu : 0 < g.unitBytes) :
    readSubvolumeVal D g file il (il + 1) xl (xl + 1) z (z + 1) 0 0 0 =
      D (fileUnit g file il xl z) (il % 4) (xl % 4) (z % 4) := by
  have hzU : 1 ≤ subvolUnits z (z + 1) := by
    unfold subvolUnits
    omega
  have h1 : il % 4 / 4 = 0 := by omega
  have h2 : xl % 4 / 4 = 0 := by omega
  have h3 : z % 4 / 4 = 0 := by omega
  unfold readSubvolumeVal decompressAt readSubvolumeDecodeShape
  dsimp only
  simp only [Nat.add_zero, h1, h2, h3, Nat.zero_mul, Nat.zero_add, Nat.add_zero,
    Nat.mul_zero, Nat.mod_mod_of_dvd il (dvd_refl 4),
    Nat.mod_mod_of_dvd xl (dvd_refl 4), Nat.mod_mod_of_dvd z (dvd_refl 4)]
  have harg : unitList
      (subvolBuf g file il xl z (subvolUnits xl (xl + 1)) (subvolUnits z (z + 1))) 0
      g.unitBytes = fileUnit g file il xl z := by
    unfold unitList fileUnit subvolBuf
    apply List.map_congr_left
    intro t ht
    rw [List.mem_range] at ht
    have hle : g.unitBytes ≤ g.unitBytes * subvolUnits z (z + 1) :=
      Nat.le_mul_of_pos_right _ hzU
    have hd : t / (g.unitBytes * subvolUnits z (z + 1)) = 0 :=
      Nat.div_eq_of_lt (by omega)
    have hm : t % (g.unitBytes * subvolUnits z (z + 1)) = t :=
      Nat.mod_eq_of_lt (by omega)
    rw [Nat.zero_add, hd, hm, Nat.zero_div, Nat.zero_mod]
    unfold subvolSeek
    rw [Nat.zero_add, Nat.zero_add]
  rw [harg]

/-- The value `read_inline(il)` exposes at `[xl, z]` decodes the same
on-disk unit. -/
theorem readInlineVal_eq (D : List Nat → Nat → Nat → Nat → Nat) (g : Geom)
    (file : Nat → Nat) (il xl z : Nat) (hdvd : g.rate ∣ 2048)
    (h4 : 4 ∣ g.blockshapeZ) :
    readInlineVal D g file il xl z =
      D (fileUnit g file il xl z) (il % 4) (xl % 4) (z % 4) := by
  have h1 : il % 4 / 4 = 0 := by omega
  unfold readInlineVal decompressAt readInlineDecodeShape
  dsimp only
  simp only [h1, Nat.zero_mul, Nat.zero_add, Nat.mod_mod_of_dvd il (dvd_refl 4)]
  have hbuf : unitList (inlineBuf g file il)
      (g.unitBytes * (xl / 4 * (g.shapePad2 / 4) + z / 4)) g.unitBytes =
      fileUnit g file il xl z := by
    unfold unitList fileUnit inlineBuf readInlinePlan
    dsimp only
    apply List.map_congr_left
    intro t ht
    apply congrArg file
    rw [inline_stride_eq g hdvd h4]
    ring
  rw [hbuf]

/-- The value `read_zslice(z)` exposes at `[il, xl]` decodes the same
on-disk unit (through the parallel-gathered buffer). -/
theorem readZsliceVal_eq (D : List Nat → Nat → Nat → Nat → Nat) (g : Geom)
    (file : Nat → Nat) (il xl z : Nat) (hdvd : g.rate ∣ 2048)
    (h4 : 4 ∣ g.blockshapeZ) (hil : il < g.shapePad0) (hxl : xl < g.shapePad1) :
    readZsliceVal D g file z il xl =
      D (fileUnit g file il xl z) (il % 4) (xl % 4) (z % 4) := by
  have hr := rate_pos_of_dvd g hdvd
  have hu : 0 < g.unitBytes := by
    rw [unitBytes_eq]
    omega
  obtain ⟨q0, h0⟩ := shapePad0_dvd g
  obtain ⟨q1, h1⟩ := shapePad1_dvd g
  rw [h0] at hil
  rw [h1] at hxl
  have hb : il / 4 * (g.shapePad1 / 4) + xl / 4 < zsliceRangeCount g := by
    unfold zsliceRangeCount
    rw [h0, h1, Nat.mul_div_cancel_left _ (by norm_num : 0 < 4),
      Nat.mul_div_cancel_left _ (by norm_num : 0 < 4)]
    have ha : il / 4 < q0 := by omega
    have hc : xl / 4 < q1 := by omega
    calc il / 4 * q1 + xl / 4 < il / 4 * q1 + q1 := by omega
    _ = (il / 4 + 1) * q1 := by ring
    _ ≤ q0 * q1 := Nat.mul_le_mul_right q1 (by omega)
  have hz4 : z % 4 / 4 = 0 := by omega
  unfold readZsliceVal decompressAt readZsliceDecodeShape
  dsimp only
  simp only [hz4, Nat.add_zero, show (4 : Nat) / 4 = 1 from rfl, Nat.mul_one,
    Nat.mod_mod_of_dvd z (dvd_refl 4)]
  have harg : unitList (zsliceBuf g file z)
      (g.unitBytes * (il / 4 * (g.shapePad1 / 4) + xl / 4)) g.unitBytes =
      fileUnit g file il xl z := by
    unfold unitList fileUnit
    apply List.map_congr_left
    intro t ht
    rw [List.mem_range] at ht
    unfold zsliceBuf
    rw [applyZWrites_apply g file z hu _ _ _, zsliceParts_flatten g]
    have hdiv : (g.unitBytes * (il / 4 * (g.shapePad1 / 4) + xl / 4) + t) /
        g.unitBytes = il / 4 * (g.shapePad1 / 4) + xl / 4 := by
      rw [Nat.mul_add_div hu, Nat.div_eq_of_lt ht, Nat.add_zero]
    have hmod : (g.unitBytes * (il / 4 * (g.shapePad1 / 4) + xl / 4) + t) %
        g.unitBytes = t := by
      rw [Nat.mul_add_mod]
      exact Nat.mod_eq_of_lt ht
    rw [hdiv, hmod, if_pos (List.mem_range.mpr hb),
      zsliceRangeOffset_eq g z il xl hdvd h4]
  rw [harg]

/-- C4: cross-pattern consistency.  For every valid `(il, xl, z)` — the
codec being an arbitrary deterministic per-unit decode `D` as the spec's
fixed-rate block-codec contract provides — the single value
`read_subvolume(il, il+1, xl, xl+1, z, z+1)[0,0,0]` equals the value at
`[il, xl]` of `read_zslice(z)` and the value at `[xl, z]` of
`read_inline(il)`: all three paths fetch and decode the same on-disk
4×4×4 unit at the same intra-unit position. -/
theorem C4_cross_pattern_consistency (D : List Nat → Nat → Nat → Nat → Nat)
    (g : Geom) (file : Nat → Nat) (il xl z : Nat)
    (hdvd : g.rate ∣ 2048) (h4 : 4 ∣ g.blockshapeZ)
    (hil : il < g.ilines) (hxl : xl < g.xlines) (hz : z < g.tracelength) :
    readSubvolumeVal D g file il (il + 1) xl (xl + 1) z (z + 1) 0 0 0 =
      readZsliceVal D g file z il xl ∧
    readSubvolumeVal D g file il (il + 1) xl (xl + 1) z (z + 1) 0 0 0 =
      readInlineVal D g file il xl z := by
  have hr := rate_pos_of_dvd g hdvd
  have hu : 0 < g.unitBytes := by
    rw [unitBytes_eq]
    omega
  have hil' : il < g.shapePad0 :=
    lt_of_lt_of_le hil (le_pad g.ilines 4 (by norm_num))
  have hxl' : xl < g.shapePad1 :=
    lt_of_lt_of_le hxl (le_pad g.xlines 4 (by norm_num))
  rw [readSubvolumeVal_single D g file il xl z hu,
    readZsliceVal_eq D g file il xl z hdvd h4 hil' hxl',
    readInlineVal_eq D g file il xl z hdvd h4]
  exact ⟨rfl, rfl⟩

/-- Witness for C4 at `gEx` and `(il, xl, z) = (1, 2, 3)`, with a
constant decode function and zero file. -/
theorem C4_cross_pattern_consistency_witness :
    gEx.rate ∣ 2048 ∧ 4 ∣ gEx.blockshapeZ ∧
    (readSubvolumeVal (fun _ _ _ _ => 0) gEx (fun _ => 0) 1 2 2 3 3 4 0 0 0 =
        readZsliceVal (fun _ _ _ _ => 0) gEx (fun _ => 0) 3 1 2 ∧
      readSubvolumeVal (fun _ _ _ _ => 0) gEx (fun _ => 0) 1 2 2 3 3 4 0 0 0 =
        readInlineVal (fun _ _ _ _ => 0) gEx (fun _ => 0) 1 2 3) :=
  ⟨by decide, by decide,
    C4_cross_pattern_consistency (fun _ _ _ _ => 0) gEx (fun _ => 0) 1 2 3
      (by decide) (by decide) (by decide) (by decide) (by decide)⟩

end SeismicZfp
